import Mathlib

/-!
Verification of the measurement-server core of `2026-02-js-perf`.

We shallow-embed the HTTP/1.1 measurement endpoint from
`cmd/http1-server/main.go` (size parsing via `strconv.ParseInt`,
`io.LimitReader`, `io.CopyBuffer` with a 1 MiB buffer) together with the
collaborators the spec describes: the deterministic infinite payload
source, the request body, the response writer, the down/upload handlers,
the HTTP/2 stream-split policy and the ndt7 download loop.
-/

namespace JsPerf

/-- Error component of a Go `io.Reader.Read` result: `nil`, `io.EOF`, or
any other I/O error (connection reset etc.). -/
inductive Errv where
  | ok : Errv
  | eof : Errv
  | ioError : Errv
deriving DecidableEq

/-- Result of one `Read(p)` call: the bytes placed in the buffer, the
reader's next state, and the error value. -/
structure ReadResult (σ : Type) where
  data : List Nat
  next : σ
  errv : Errv
deriving DecidableEq

/-- Result of one `Write(p)` call: the number of bytes accepted, the
writer's next state, and whether an error was returned. -/
structure WriteResult (σ : Type) where
  nw : Nat
  next : σ
  errored : Bool
deriving DecidableEq

/-- The chunk size used throughout the repository: 1 MiB
(`buf := make([]byte, 1<<20)`). -/
def chunkSize : Nat := 2 ^ 20

/-- Modelled from the spec: the Synthetic Payload Source
(`internal/infinite.Reader`, whose source is not in the shown tree).
Per §4.1 it fills a caller-provided buffer of arbitrary size up to a
fixed chunk (1 MiB) per call with deterministic fixed content (a
repeating constant byte), is stateless, never blocks, and never returns
`io.EOF` on its own. -/
def infiniteRead (_s : Unit) (n : Nat) : ReadResult Unit :=
  { data := List.replicate (min n chunkSize) 0, next := (), errv := .ok }

/-- State of Go's `io.LimitedReader`: the remaining byte budget `N`
(an `int64`) and the state of the wrapped reader. -/
structure LimitedState (σ : Type) where
  budget : Int
  inner : σ
deriving DecidableEq

/-- Go's `io.LimitedReader.Read`: at most `budget` bytes are read from
the wrapped reader; once the budget is exhausted it returns `io.EOF`
without touching the wrapped reader. -/
def limitedRead {σ : Type} (innerRead : σ → Nat → ReadResult σ)
    (st : LimitedState σ) (n : Nat) : ReadResult (LimitedState σ) :=
  if st.budget ≤ 0 then
    { data := [], next := st, errv := .eof }
  else
    let r := innerRead st.inner (min n st.budget.toNat)
    { data := r.data
      next := { budget := st.budget - r.data.length, inner := r.next }
      errv := r.errv }

/-- State of the request body stream (`req.Body`): the bytes the client
still has in flight, and whether the stream ends with a transport error
(client disconnect) instead of a normal `io.EOF`. -/
structure BodyState where
  pending : List Nat
  hardError : Bool
deriving DecidableEq

/-- One `Read` from the request body: yields up to `n` of the pending
bytes; when nothing is left it reports `io.EOF` (graceful end) or an
I/O error (disconnect). -/
def bodyRead (s : BodyState) (n : Nat) : ReadResult BodyState :=
  match s.pending with
  | [] => { data := [], next := s, errv := if s.hardError then .ioError else .eof }
  | _ => { data := s.pending.take n
           next := { pending := s.pending.drop n, hardError := s.hardError }
           errv := .ok }

/-- State of the HTTP response writer: the bytes already sent to the
client and, when the client disconnects early, the remaining number of
bytes the connection will still accept before writes start failing
(`none` = the client reads everything). -/
structure RWState where
  sent : List Nat
  accept : Option Nat
deriving DecidableEq

/-- One `Write` to the response: with a live client everything is
accepted; a dying connection accepts the remaining budget and then
returns a write error (Go reports the partial count `n < len(p)`). -/
def rwWrite (s : RWState) (p : List Nat) : WriteResult RWState :=
  match s.accept with
  | none => { nw := p.length, next := { sent := s.sent ++ p, accept := none }, errored := false }
  | some c =>
      if p.length ≤ c then
        { nw := p.length
          next := { sent := s.sent ++ p, accept := some (c - p.length) }
          errored := false }
      else
        { nw := c
          next := { sent := s.sent ++ p.take c, accept := some 0 }
          errored := true }

/-- Go's `io.Discard`: accepts every byte and never fails. -/
def discardWrite (_s : Unit) (p : List Nat) : WriteResult Unit :=
  { nw := p.length, next := (), errored := false }

/-- Go's `io.CopyBuffer` loop: repeatedly read up to `bufSize` bytes and
write them, accumulating the written count `acc`, until the reader
reports `io.EOF` (success) or either side fails.  Returns the total
written, the final reader and writer states, and whether a non-EOF error
occurred.  The loop is fueled; `none` means the fuel ran out (the
callers below always supply enough fuel for the loop to finish). -/
def copyBuffer {σr σw : Type} (read : σr → Nat → ReadResult σr)
    (write : σw → List Nat → WriteResult σw) (bufSize : Nat) :
    Nat → σr → σw → Nat → Option (Nat × σr × σw × Bool)
  | 0, _, _, _ => none
  | fuel + 1, r, w, acc =>
      let rr := read r bufSize
      if rr.data.length > 0 then
        let wr := write w rr.data
        let acc2 := acc + wr.nw
        if wr.errored then some (acc2, rr.next, wr.next, true)
        else if wr.nw ≠ rr.data.length then some (acc2, rr.next, wr.next, true)
        else
          match rr.errv with
          | .ok => copyBuffer read write bufSize fuel rr.next wr.next acc2
          | .eof => some (acc2, rr.next, wr.next, false)
          | .ioError => some (acc2, rr.next, wr.next, true)
      else
        match rr.errv with
        | .ok => copyBuffer read write bufSize fuel rr.next w acc
        | .eof => some (acc, rr.next, w, false)
        | .ioError => some (acc, rr.next, w, true)

/-- Decimal digit test, as in `strconv`. -/
def isDigit (c : Char) : Bool := '0' ≤ c && c ≤ '9'

/-- Value of a non-empty all-digit decimal string; `none` otherwise. -/
def decimalValue? (cs : List Char) : Option Nat :=
  if cs = [] then none
  else if cs.all isDigit then
    some (cs.foldl (fun acc c => acc * 10 + (c.toNat - '0'.toNat)) 0)
  else none

/-- Go's `strconv.ParseInt(s, 10, 64)`: optional sign, non-empty digit
string, and a range check against `int64` (`≤ 2^63 - 1` for positive
values, `≥ -2^63` for negative ones); out-of-range input is an error. -/
def parseInt64 (cs : List Char) : Option Int :=
  match cs with
  | [] => none
  | c :: rest =>
      if c = '+' then
        (decimalValue? rest).bind fun n =>
          if n ≤ 2 ^ 63 - 1 then some (n : Int) else none
      else if c = '-' then
        (decimalValue? rest).bind fun n =>
          if n ≤ 2 ^ 63 then some (-(n : Int)) else none
      else
        (decimalValue? (c :: rest)).bind fun n =>
          if n ≤ 2 ^ 63 - 1 then some (n : Int) else none

/-- What `handleGet` produces, as observable from the outside: the HTTP
status, the `Content-Length` header (when set), the body bytes actually
delivered to the client, and the byte count of the `GET done` log event
(`none` when no completion event is logged). -/
structure GetOutcome where
  status : Nat
  contentLength : Option Int
  body : List Nat
  doneBytes : Option Nat
deriving DecidableEq

/-- The handler `handleGet` from `cmd/http1-server/main.go`: parse the `{size}` path
value with `strconv.ParseInt(.., 10, 64)`; on parse error or a negative
count answer 400 with no body and no completion log; otherwise set
`Content-Length`, answer 200, and stream
`io.LimitReader(infinite.Reader{}, count)` to the response through
`io.CopyBuffer` with a 1 MiB buffer, logging the written count in the
`GET done` event.  `accept` models how many bytes the client connection
still accepts (`none` = a well-behaved client).  `none` overall means
the fueled copy loop did not finish (shown impossible below). -/
def handleGet (size : String) (accept : Option Nat) : Option GetOutcome :=
  match parseInt64 size.data with
  | none => some { status := 400, contentLength := none, body := [], doneBytes := none }
  | some count =>
      if count < 0 then
        some { status := 400, contentLength := none, body := [], doneBytes := none }
      else
        let src : LimitedState Unit := { budget := count, inner := () }
        let rw : RWState := { sent := [], accept := accept }
        match copyBuffer (limitedRead infiniteRead) rwWrite chunkSize
            (count.toNat + 1) src rw 0 with
        | none => none
        | some (written, _, rwFin, _) =>
            some { status := 200
                   contentLength := some count
                   body := rwFin.sent
                   doneBytes := some written }

/-- What `handlePut` produces: the HTTP status, the byte count of the
`PUT done` log event (`none` when no completion event is logged), and
the final state of the request body stream (which records how far the
handler read into it). -/
structure PutOutcome where
  status : Nat
  doneBytes : Option Nat
  finalBody : BodyState
deriving DecidableEq

/-- The handler `handlePut` from `cmd/http1-server/main.go`: parse the `{size}` path
value; on parse error or a negative count answer 400 with no completion
log; otherwise drain `io.LimitReader(req.Body, expectCount)` into
`io.Discard` through `io.CopyBuffer` (the copy error is discarded: the
Go code binds it to `_`), log the read count in the `PUT done` event,
and answer 204 unconditionally. -/
def handlePut (size : String) (body : BodyState) : Option PutOutcome :=
  match parseInt64 size.data with
  | none => some { status := 400, doneBytes := none, finalBody := body }
  | some expectCount =>
      if expectCount < 0 then
        some { status := 400, doneBytes := none, finalBody := body }
      else
        let src : LimitedState BodyState := { budget := expectCount, inner := body }
        match copyBuffer (limitedRead bodyRead) discardWrite chunkSize
            (expectCount.toNat + 1) src () 0 with
        | none => none
        | some (read, srcFin, _, _) =>
            some { status := 204
                   doneBytes := some read
                   finalBody := srcFin.inner }

/-- Modelled from the spec: the HTTP/2 Stream-Split Policy partition
boundaries (SS 4.3; the policy itself lives in the browser-side JavaScript
test pages, which are outside the shown tree).  The total is divided into
`count` contiguous ranges of uniform floor size `total / count`, with the
remainder `total % count` absorbed by the last partition. -/
def partitionSize (total count i : Nat) : Nat :=
  if i + 1 = count then total / count + total % count else total / count

/-- Modelled from the spec: byte offset at which partition `i` starts. -/
def partitionStart (total count i : Nat) : Nat := (total / count) * i

/-- Modelled from the spec: the ndt7 download message-size schedule
(SS 4.4): messages start at `initial` bytes and double every `cadence`
ticks, capped at `cap`. -/
def ndt7MsgSize (initial cap cadence elapsed : Nat) : Nat :=
  min (initial * 2 ^ (elapsed / cadence)) cap

/-- The ~8 MiB cap on ndt7 message size documented by the spec. -/
def ndt7Cap : Nat := 8 * 2 ^ 20

/-- The fixed time-based measurement window documented by the spec
(10 seconds), counted here in loop ticks. -/
def ndt7WindowTicks : Nat := 10

/-- Modelled from the spec: the ndt7 download send loop (the ndt7 `serve`
implementation is not in the shown tree; only its command dispatcher is).
The loop counts down the remaining ticks of the fixed measurement window,
sending one sized message per tick; when the window expires it stops and
closes the connection cleanly (`true`).  Termination is purely
timer-driven: no client input is consulted. -/
def ndt7Loop (initial cap cadence : Nat) : Nat → Nat → List Nat × Bool
  | 0, _ => ([], true)
  | t + 1, elapsed =>
      let rest := ndt7Loop initial cap cadence t (elapsed + 1)
      (ndt7MsgSize initial cap cadence elapsed :: rest.1, rest.2)

/-- Modelled from the spec: one ndt7 download session over a window of
`window` ticks.  `stopRequested` records whether the client ever sent an
explicit stop message; the loop's termination is time-based only and
never consults it. -/
def ndt7Download (initial cap cadence window : Nat) (stopRequested : Bool) :
    List Nat × Bool :=
  ndt7Loop initial cap cadence window 0

/-- Timing skeleton of `handleGet`/`handlePut` (lines 101-107 and 127-131
of `cmd/http1-server/main.go`): the wall-clock instants, in source order,
of the handler starting to process the request, the `t0 := time.Now()`
sample taken after validation and the request-received log, the first
payload byte moving inside `io.CopyBuffer`, and the copy returning
(where `elapsed := time.Since(t0)` is computed). -/
structure TransferTimeline where
  tHandlerStart : Nat
  tSample : Nat
  tFirstByte : Nat
  tClose : Nat
  handlerStart_le_sample : tHandlerStart ≤ tSample
  sample_le_firstByte : tSample ≤ tFirstByte
  firstByte_le_close : tFirstByte ≤ tClose

/-- The elapsed duration the handlers log: `time.Since(t0)` with `t0`
sampled at lines 101/127, before the response header is written and
before any payload byte moves. -/
def elapsedLogged (tl : TransferTimeline) : Nat := tl.tClose - tl.tSample

/-- The elapsed duration the claim describes: time of closure of the
accounting wrapper minus time of the first byte transferred (start
recorded on first use of the wrapped stream). -/
def elapsedFirstByte (tl : TransferTimeline) : Nat := tl.tClose - tl.tFirstByte

/-- A concrete run in which one clock tick passes between the `t0`
sample and the first payload byte (e.g. spent writing the response
header), and the copy returns two ticks after the first byte. -/
def timelineGap : TransferTimeline where
  tHandlerStart := 0
  tSample := 0
  tFirstByte := 1
  tClose := 3
  handlerStart_le_sample := by decide
  sample_le_firstByte := by decide
  firstByte_le_close := by decide

/-- A concrete run in which the first byte moves at the very instant of
the `t0` sample. -/
def timelineTight : TransferTimeline where
  tHandlerStart := 0
  tSample := 1
  tFirstByte := 1
  tClose := 4
  handlerStart_le_sample := by decide
  sample_le_firstByte := by decide
  firstByte_le_close := by decide

theorem chunkSize_pos : 0 < chunkSize := by
  simp [chunkSize]

theorem copy_inf_unbounded (fuel : Nat) : ∀ (rem acc : Nat) (sent : List Nat),
    rem + 1 ≤ fuel →
    copyBuffer (limitedRead infiniteRead) rwWrite chunkSize fuel
      { budget := (rem : Int), inner := () } { sent := sent, accept := none } acc
      = some (acc + rem, { budget := 0, inner := () },
          { sent := sent ++ List.replicate rem 0, accept := none }, false) := by
  induction fuel with
  | zero => intro rem acc sent h; omega
  | succ n ih =>
    intro rem acc sent h
    by_cases h0 : rem = 0
    · subst h0
      simp [copyBuffer, limitedRead]
    · have hrem : 0 < rem := Nat.pos_of_ne_zero h0
      have hk : 0 < min chunkSize rem := lt_min chunkSize_pos hrem
      have hbudget : ¬ ((rem : Int) ≤ 0) := by exact_mod_cast Nat.not_le.mpr hrem
      rw [copyBuffer]
      simp only [limitedRead, infiniteRead, rwWrite, if_neg hbudget,
        Int.toNat_natCast, List.length_replicate]
      have hmm : chunkSize ⊓ rem ⊓ chunkSize = chunkSize ⊓ rem := by omega
      rw [hmm]
      rw [if_pos hk]
      have hkr : chunkSize ⊓ rem ≤ rem := min_le_right _ _
      have hcast : (rem : Int) - (chunkSize ⊓ rem : Nat) = ((rem - chunkSize ⊓ rem : Nat) : Int) := by
        omega
      rw [if_neg (show ¬ (false = true) by simp)]
      rw [if_neg (show ¬ (chunkSize ⊓ rem ≠ chunkSize ⊓ rem) by simp)]
      rw [hcast, ih (rem - chunkSize ⊓ rem) (acc + chunkSize ⊓ rem)
        (sent ++ List.replicate (chunkSize ⊓ rem) 0) (by omega)]
      have h1 : acc + chunkSize ⊓ rem + (rem - chunkSize ⊓ rem) = acc + rem := by omega
      have h2 : (sent ++ List.replicate (chunkSize ⊓ rem) 0) ++ List.replicate (rem - chunkSize ⊓ rem) 0
          = sent ++ List.replicate rem 0 := by
        rw [List.append_assoc, ← List.replicate_add]
        congr 2
        omega
      rw [h1, h2]

theorem copy_inf_client (fuel : Nat) : ∀ (rem c acc : Nat) (sent : List Nat),
    rem + 1 ≤ fuel →
    ∃ rfin, copyBuffer (limitedRead infiniteRead) rwWrite chunkSize fuel
      { budget := (rem : Int), inner := () } { sent := sent, accept := some c } acc
      = some (acc + min rem c, rfin,
          { sent := sent ++ List.replicate (min rem c) 0, accept := some (c - min rem c) },
          decide (c < rem)) := by
  induction fuel with
  | zero => intro rem c acc sent h; omega
  | succ n ih =>
    intro rem c acc sent h
    by_cases h0 : rem = 0
    · subst h0
      refine ⟨{ budget := 0, inner := () }, ?_⟩
      simp [copyBuffer, limitedRead]
    · have hrem : 0 < rem := Nat.pos_of_ne_zero h0
      have hk : 0 < min chunkSize rem := lt_min chunkSize_pos hrem
      have hbudget : ¬ ((rem : Int) ≤ 0) := by exact_mod_cast Nat.not_le.mpr hrem
      have hkr : chunkSize ⊓ rem ≤ rem := min_le_right _ _
      by_cases hkc : chunkSize ⊓ rem ≤ c
      · obtain ⟨rfin, hr⟩ := ih (rem - chunkSize ⊓ rem) (c - chunkSize ⊓ rem)
          (acc + chunkSize ⊓ rem) (sent ++ List.replicate (chunkSize ⊓ rem) 0) (by omega)
        refine ⟨rfin, ?_⟩
        rw [copyBuffer]
        simp only [limitedRead, infiniteRead, rwWrite, if_neg hbudget,
          Int.toNat_natCast, List.length_replicate]
        have hmm : chunkSize ⊓ rem ⊓ chunkSize = chunkSize ⊓ rem := by omega
        rw [hmm, if_pos hk, if_pos hkc]
        rw [if_neg (show ¬ (false = true) by simp)]
        rw [if_neg (show ¬ (chunkSize ⊓ rem ≠ chunkSize ⊓ rem) by simp)]
        have hcast : (rem : Int) - (chunkSize ⊓ rem : Nat) = ((rem - chunkSize ⊓ rem : Nat) : Int) := by
          omega
        rw [hcast, hr]
        have h1 : acc + chunkSize ⊓ rem + min (rem - chunkSize ⊓ rem) (c - chunkSize ⊓ rem)
            = acc + min rem c := by omega
        have h2 : (sent ++ List.replicate (chunkSize ⊓ rem) 0)
              ++ List.replicate (min (rem - chunkSize ⊓ rem) (c - chunkSize ⊓ rem)) 0
            = sent ++ List.replicate (min rem c) 0 := by
          rw [List.append_assoc, ← List.replicate_add]
          congr 2
          omega
        have h3 : c - chunkSize ⊓ rem - min (rem - chunkSize ⊓ rem) (c - chunkSize ⊓ rem)
            = c - min rem c := by omega
        have h4 : decide (c - chunkSize ⊓ rem < rem - chunkSize ⊓ rem) = decide (c < rem) := by
          rw [decide_eq_decide]
          omega
        rw [h1, h2, h3, h4]
      · refine ⟨{ budget := (rem : Int) - (chunkSize ⊓ rem : Nat), inner := () }, ?_⟩
        rw [copyBuffer]
        simp only [limitedRead, infiniteRead, rwWrite, if_neg hbudget,
          Int.toNat_natCast, List.length_replicate]
        have hmm : chunkSize ⊓ rem ⊓ chunkSize = chunkSize ⊓ rem := by omega
        rw [hmm, if_pos hk, if_neg hkc]
        rw [if_pos (show (true = true) by rfl)]
        have h1 : acc + c = acc + min rem c := by omega
        have h2 : List.take c (List.replicate (chunkSize ⊓ rem) 0) = List.replicate (min rem c) 0 := by
          rw [List.take_replicate]
          congr 1
          omega
        have h3 : (0 : Nat) = c - min rem c := by omega
        have h4 : true = decide (c < rem) := by
          rw [eq_comm, decide_eq_true_eq]
          omega
        rw [h1, h2, h3, h4]

theorem copy_body (fuel : Nat) : ∀ (rem : Nat) (pend : List Nat) (hard : Bool) (acc : Nat),
    rem + 1 ≤ fuel →
    copyBuffer (limitedRead bodyRead) discardWrite chunkSize fuel
      { budget := (rem : Int), inner := { pending := pend, hardError := hard } } () acc
      = some (acc + min rem pend.length,
          { budget := (rem : Int) - (min rem pend.length : Nat),
            inner := { pending := pend.drop (min rem pend.length), hardError := hard } }, (),
          hard && decide (pend.length < rem)) := by
  induction fuel with
  | zero => intro rem pend hard acc h; omega
  | succ n ih =>
    intro rem pend hard acc h
    by_cases h0 : rem = 0
    · subst h0
      cases hard <;> simp [copyBuffer, limitedRead]
    · have hrem : 0 < rem := Nat.pos_of_ne_zero h0
      have hbudget : ¬ ((rem : Int) ≤ 0) := by exact_mod_cast Nat.not_le.mpr hrem
      match pend with
      | [] =>
        cases hard <;>
          simp [copyBuffer, limitedRead, bodyRead, h0, hrem]
      | p :: ps =>
        have hplen : 0 < (p :: ps).length := by simp
        have hn : 0 < min chunkSize rem := lt_min chunkSize_pos hrem
        have hlen : 0 < min (min chunkSize rem) (p :: ps).length := lt_min hn hplen
        rw [copyBuffer]
        simp only [limitedRead, bodyRead, discardWrite, if_neg hbudget,
          Int.toNat_natCast, List.length_take]
        rw [if_pos hlen]
        rw [if_neg (show ¬ (false = true) by simp)]
        rw [if_neg (show ¬ (chunkSize ⊓ rem ⊓ (p :: ps).length ≠ chunkSize ⊓ rem ⊓ (p :: ps).length) by simp)]
        have hlr : chunkSize ⊓ rem ⊓ (p :: ps).length ≤ rem := by omega
        have hcast : (rem : Int) - (chunkSize ⊓ rem ⊓ (p :: ps).length : Nat)
            = ((rem - chunkSize ⊓ rem ⊓ (p :: ps).length : Nat) : Int) := by omega
        rw [hcast]
        rw [ih (rem - chunkSize ⊓ rem ⊓ (p :: ps).length)
          ((p :: ps).drop (chunkSize ⊓ rem))
          hard (acc + chunkSize ⊓ rem ⊓ (p :: ps).length) (by omega)]
        have hdlen : ((p :: ps).drop (chunkSize ⊓ rem)).length
            = (p :: ps).length - chunkSize ⊓ rem := by
          simp [List.length_drop]
        by_cases hnp : (p :: ps).length ≤ chunkSize ⊓ rem
        · -- the whole pending list fits in this read
          have hdnil : (p :: ps).drop (chunkSize ⊓ rem) = [] :=
            List.drop_eq_nil_of_le hnp
          have e1 : chunkSize ⊓ rem ⊓ (p :: ps).length = (p :: ps).length := by omega
          have e2 : min rem (p :: ps).length = (p :: ps).length := by omega
          rw [hdnil, e1, e2]
          simp only [List.length_nil, List.drop_nil, Nat.min_zero, List.drop_length]
          have e3 : acc + (p :: ps).length + 0 = acc + (p :: ps).length := by omega
          have e4 : ((rem - (p :: ps).length : Nat) : Int) - ((0 : Nat) : Int)
              = (rem : Int) - ((p :: ps).length : Nat) := by omega
          have e5 : (hard && decide (0 < rem - (p :: ps).length))
              = (hard && decide ((p :: ps).length < rem)) := by
            congr 1
            rw [decide_eq_decide]
            omega
          rw [e3, e4, e5]
        · -- the read takes a full chunk and leaves pending bytes behind
          have hlt : chunkSize ⊓ rem < (p :: ps).length := by omega
          have e1 : chunkSize ⊓ rem ⊓ (p :: ps).length = chunkSize ⊓ rem := by omega
          rw [e1, hdlen]
          have e2 : acc + chunkSize ⊓ rem
                + min (rem - chunkSize ⊓ rem) ((p :: ps).length - chunkSize ⊓ rem)
              = acc + min rem (p :: ps).length := by omega
          have e3 : ((rem - chunkSize ⊓ rem : Nat) : Int)
                - (min (rem - chunkSize ⊓ rem) ((p :: ps).length - chunkSize ⊓ rem) : Nat)
              = (rem : Int) - (min rem (p :: ps).length : Nat) := by omega
          have e4 : ((p :: ps).drop (chunkSize ⊓ rem)).drop
                (min (rem - chunkSize ⊓ rem) ((p :: ps).length - chunkSize ⊓ rem))
              = (p :: ps).drop (min rem (p :: ps).length) := by
            rw [List.drop_drop]
            congr 1
            omega
          have e5 : (hard && decide ((p :: ps).length - chunkSize ⊓ rem < rem - chunkSize ⊓ rem))
              = (hard && decide ((p :: ps).length < rem)) := by
            congr 1
            rw [decide_eq_decide]
            omega
          rw [e2, e3, e4, e5]

theorem handleGet_valid_live (s : String) (N : Int)
    (hp : parseInt64 s.data = some N) (hN : 0 ≤ N) :
    handleGet s none
      = some { status := 200, contentLength := some N,
               body := List.replicate N.toNat 0, doneBytes := some N.toNat } := by
  lift N to Nat using hN with n
  unfold handleGet
  rw [hp]
  dsimp only
  rw [if_neg (by exact_mod_cast Nat.not_lt.mpr (Nat.zero_le n))]
  rw [Int.toNat_natCast]
  rw [copy_inf_unbounded (n + 1) n 0 [] (Nat.le_refl _)]
  simp

theorem handleGet_valid_client (s : String) (N : Int) (c : Nat)
    (hp : parseInt64 s.data = some N) (hN : 0 ≤ N) :
    handleGet s (some c)
      = some { status := 200, contentLength := some N,
               body := List.replicate (min N.toNat c) 0,
               doneBytes := some (min N.toNat c) } := by
  lift N to Nat using hN with n
  unfold handleGet
  rw [hp]
  dsimp only
  rw [if_neg (by exact_mod_cast Nat.not_lt.mpr (Nat.zero_le n))]
  rw [Int.toNat_natCast]
  obtain ⟨rfin, hr⟩ := copy_inf_client (n + 1) n c 0 [] (Nat.le_refl _)
  rw [hr]
  simp

theorem handlePut_valid (s : String) (N : Int) (pend : List Nat) (hard : Bool)
    (hp : parseInt64 s.data = some N) (hN : 0 ≤ N) :
    handlePut s { pending := pend, hardError := hard }
      = some { status := 204, doneBytes := some (min N.toNat pend.length),
               finalBody := { pending := pend.drop (min N.toNat pend.length),
                              hardError := hard } } := by
  lift N to Nat using hN with n
  unfold handlePut
  rw [hp]
  dsimp only
  rw [if_neg (by exact_mod_cast Nat.not_lt.mpr (Nat.zero_le n))]
  rw [Int.toNat_natCast]
  rw [copy_body (n + 1) n pend hard 0 (Nat.le_refl _)]
  simp

theorem handleGet_invalid (s : String) (accept : Option Nat)
    (hbad : parseInt64 s.data = none ∨ ∃ N, parseInt64 s.data = some N ∧ N < 0) :
    handleGet s accept
      = some { status := 400, contentLength := none, body := [], doneBytes := none } := by
  unfold handleGet
  rcases hbad with hnone | ⟨N, hsome, hneg⟩
  · rw [hnone]
  · rw [hsome]
    dsimp only
    rw [if_pos hneg]

theorem handlePut_invalid (s : String) (body : BodyState)
    (hbad : parseInt64 s.data = none ∨ ∃ N, parseInt64 s.data = some N ∧ N < 0) :
    handlePut s body
      = some { status := 400, doneBytes := none, finalBody := body } := by
  unfold handlePut
  rcases hbad with hnone | ⟨N, hsome, hneg⟩
  · rw [hnone]
  · rw [hsome]
    dsimp only
    rw [if_pos hneg]

theorem parseInt64_pos_overflow (cs : List Char) (N : Nat)
    (hd : decimalValue? cs = some N) (hover : 2 ^ 63 - 1 < N) :
    parseInt64 cs = none := by
  match cs with
  | [] =>
    rw [decimalValue?] at hd
    simp at hd
  | c :: rest =>
    have hdig : (c :: rest).all isDigit = true := by
      rw [decimalValue?] at hd
      split_ifs at hd
      all_goals first | assumption | simp at hd
    have hc : isDigit c = true := by
      simp [List.all_cons] at hdig
      exact hdig.1
    have hplus : c ≠ '+' := by
      intro he
      rw [he] at hc
      simp [isDigit] at hc
    have hminus : c ≠ '-' := by
      intro he
      rw [he] at hc
      simp [isDigit] at hc
    rw [parseInt64]
    rw [if_neg hplus, if_neg hminus, hd]
    simp only [Option.some_bind]
    rw [if_neg (by omega)]

theorem partition_sum (T k : Nat) (hk : 1 ≤ k) :
    ∑ i in Finset.range k, partitionSize T k i = T := by
  obtain ⟨m, rfl⟩ : ∃ m, k = m + 1 := ⟨k - 1, by omega⟩
  rw [Finset.sum_range_succ]
  have hlast : partitionSize T (m + 1) m = T / (m + 1) + T % (m + 1) := by
    rw [partitionSize, if_pos rfl]
  have hrest : ∑ i in Finset.range m, partitionSize T (m + 1) i
      = m * (T / (m + 1)) := by
    have hval : ∀ i ∈ Finset.range m, partitionSize T (m + 1) i = T / (m + 1) := by
      intro i hi
      simp only [Finset.mem_range] at hi
      rw [partitionSize, if_neg (by omega)]
    rw [Finset.sum_congr rfl hval, Finset.sum_const, Finset.card_range, smul_eq_mul]
  rw [hlast, hrest]
  have hdm := Nat.div_add_mod T (m + 1)
  rw [Nat.succ_mul] at hdm
  omega

theorem partition_contiguous (T k i : Nat) (hik : i + 1 < k) :
    partitionStart T k (i + 1) = partitionStart T k i + partitionSize T k i := by
  rw [partitionSize, if_neg (by omega), partitionStart, partitionStart, Nat.mul_succ]

theorem partition_last_end (T k : Nat) (hk : 1 ≤ k) :
    partitionStart T k (k - 1) + partitionSize T k (k - 1) = T := by
  obtain ⟨m, rfl⟩ : ∃ m, k = m + 1 := ⟨k - 1, by omega⟩
  rw [partitionStart, partitionSize, if_pos (by omega)]
  simp only [Nat.add_sub_cancel]
  have hdm := Nat.div_add_mod T (m + 1)
  rw [Nat.succ_mul] at hdm
  rw [Nat.mul_comm]
  omega

theorem partition_disjoint (T k i j : Nat) (hij : i < j) (hjk : j < k) :
    partitionStart T k i + partitionSize T k i ≤ partitionStart T k j := by
  have h1 : partitionStart T k (i + 1) = partitionStart T k i + partitionSize T k i :=
    partition_contiguous T k i (by omega)
  rw [← h1, partitionStart, partitionStart]
  exact Nat.mul_le_mul_left _ (by omega)

theorem ndt7Loop_eq (i c cad : Nat) : ∀ (t e : Nat),
    ndt7Loop i c cad t e
      = ((List.range t).map (fun u => ndt7MsgSize i c cad (e + u)), true) := by
  intro t
  induction t with
  | zero => intro e; simp [ndt7Loop]
  | succ n ih =>
    intro e
    rw [ndt7Loop]
    simp only [ih (e + 1)]
    rw [List.range_succ_eq_map, List.map_cons, List.map_map]
    have hfun : ((fun u => ndt7MsgSize i c cad (e + u)) ∘ Nat.succ)
        = (fun u => ndt7MsgSize i c cad (e + 1 + u)) := by
      funext u
      simp only [Function.comp]
      congr 1
      omega
    rw [hfun]
    simp

/-- C1: for every valid size `N >= 0`, `GET /api/N` responds 200 with a
`Content-Length` header equal to `N`, a body of exactly `N` synthetic
bytes, and a completion log whose byte count equals `N`. -/
theorem C1_download_exact (s : String) (N : Int)
    (hp : parseInt64 s.data = some N) (hN : 0 ≤ N) :
    handleGet s none
      = some { status := 200, contentLength := some N,
               body := List.replicate N.toNat 0, doneBytes := some N.toNat } :=
  handleGet_valid_live s N hp hN

theorem C1_download_exact_witness :
    parseInt64 "3".data = some 3 ∧ (0 : Int) ≤ 3 ∧
    handleGet "3" none
      = some { status := 200, contentLength := some 3,
               body := List.replicate 3 0, doneBytes := some 3 } :=
  ⟨by decide, by decide, C1_download_exact "3" 3 (by decide) (by decide)⟩

/-- C2: for every valid size `N >= 0`, `PUT /api/N` whose body delivers
exactly `N` bytes responds 204 and logs a completion event with byte
count `N`; moreover the read side is bounded to the declared size: the
handler never consumes a byte past the declared boundary, whatever the
underlying stream would yield. -/
theorem C2_upload_exact_and_bounded (s : String) (N : Int) (pend : List Nat) (hard : Bool)
    (hp : parseInt64 s.data = some N) (hN : 0 ≤ N) :
    (pend.length = N.toNat →
      handlePut s { pending := pend, hardError := hard }
        = some { status := 204, doneBytes := some N.toNat,
                 finalBody := { pending := [], hardError := hard } })
    ∧ ∀ out, handlePut s { pending := pend, hardError := hard } = some out →
        pend.length - out.finalBody.pending.length ≤ N.toNat := by
  constructor
  · intro hlen
    rw [handlePut_valid s N pend hard hp hN, ← hlen, min_self, List.drop_length]
  · intro out hout
    rw [handlePut_valid s N pend hard hp hN] at hout
    obtain rfl : out = _ := (Option.some_injective _ hout.symm)
    simp only [List.length_drop]
    omega

theorem C2_upload_exact_and_bounded_witness :
    parseInt64 "2".data = some 2 ∧ ([5, 6] : List Nat).length = (2 : Int).toNat ∧
    handlePut "2" { pending := [5, 6], hardError := false }
      = some { status := 204, doneBytes := some 2,
               finalBody := { pending := [], hardError := false } } :=
  ⟨by decide, by decide,
   (C2_upload_exact_and_bounded "2" 2 [5, 6] false (by decide) (by decide)).1 (by decide)⟩

/-- C3: a `GET`/`PUT` on `/api/{size}` with a non-numeric or negative
size yields a 4xx status, writes no body, and emits no completion log. -/
theorem C3_malformed_rejected (s : String) (accept : Option Nat) (body : BodyState)
    (hbad : parseInt64 s.data = none ∨ ∃ N, parseInt64 s.data = some N ∧ N < 0) :
    handleGet s accept
      = some { status := 400, contentLength := none, body := [], doneBytes := none }
    ∧ handlePut s body
      = some { status := 400, doneBytes := none, finalBody := body } :=
  ⟨handleGet_invalid s accept hbad, handlePut_invalid s body hbad⟩

theorem C3_malformed_rejected_witness :
    (parseInt64 "-1".data = some (-1) ∧ (-1 : Int) < 0) ∧ parseInt64 "x".data = none ∧
    handleGet "-1" none
      = some { status := 400, contentLength := none, body := [], doneBytes := none } ∧
    handleGet "x" none
      = some { status := 400, contentLength := none, body := [], doneBytes := none } ∧
    handlePut "-1" { pending := [], hardError := false }
      = some { status := 400, doneBytes := none,
               finalBody := { pending := [], hardError := false } } :=
  ⟨⟨by decide, by decide⟩, by decide,
   (C3_malformed_rejected "-1" none { pending := [], hardError := false }
      (Or.inr ⟨-1, by decide, by decide⟩)).1,
   (C3_malformed_rejected "x" none { pending := [], hardError := false }
      (Or.inl (by decide))).1,
   (C3_malformed_rejected "-1" none { pending := [], hardError := false }
      (Or.inr ⟨-1, by decide, by decide⟩)).2⟩

/-- C4: the completion log reports the bytes actually transferred, never
the requested size: an early client disconnect mid-transfer (download) or
a short erroring body (upload) yields a completion log strictly below the
requested size, and the handler still returns an outcome (no crash). -/
theorem C4_partial_transfer_logged (s : String) (N : Int) (c : Nat) (pend : List Nat)
    (hp : parseInt64 s.data = some N) (hN : 0 ≤ N)
    (hc : c < N.toNat) (hpend : pend.length < N.toNat) :
    (handleGet s (some c)
      = some { status := 200, contentLength := some N,
               body := List.replicate c 0, doneBytes := some c })
    ∧ (handlePut s { pending := pend, hardError := true }
      = some { status := 204, doneBytes := some pend.length,
               finalBody := { pending := [], hardError := true } })
    ∧ c < N.toNat ∧ pend.length < N.toNat := by
  refine ⟨?_, ?_, hc, hpend⟩
  · rw [handleGet_valid_client s N c hp hN,
      Nat.min_eq_right (Nat.le_of_lt hc)]
  · rw [handlePut_valid s N pend true hp hN,
      Nat.min_eq_right (Nat.le_of_lt hpend), List.drop_length]

theorem C4_partial_transfer_logged_witness :
    parseInt64 "5".data = some 5 ∧ (2 < (5 : Int).toNat ∧ ([9, 9, 9] : List Nat).length < (5 : Int).toNat) ∧
    handleGet "5" (some 2)
      = some { status := 200, contentLength := some 5,
               body := List.replicate 2 0, doneBytes := some 2 } ∧
    handlePut "5" { pending := [9, 9, 9], hardError := true }
      = some { status := 204, doneBytes := some 3,
               finalBody := { pending := [], hardError := true } } :=
  ⟨by decide, ⟨by decide, by decide⟩,
   (C4_partial_transfer_logged "5" 5 2 [9, 9, 9] (by decide) (by decide)
      (by decide) (by decide)).1,
   (C4_partial_transfer_logged "5" 5 2 [9, 9, 9] (by decide) (by decide)
      (by decide) (by decide)).2.1⟩

/-- C5: for a split transfer of total size `T` into `k >= 1` partitions,
the partition ranges are contiguous, non-overlapping, sum exactly to `T`,
the remainder `T mod k` is absorbed by the last partition, and all
earlier partitions have the uniform floor size `T / k`. -/
theorem C5_split_partitions (T k : Nat) (hk : 1 ≤ k) :
    (∑ i in Finset.range k, partitionSize T k i = T)
    ∧ (∀ i, i + 1 < k →
        partitionStart T k (i + 1) = partitionStart T k i + partitionSize T k i)
    ∧ (partitionStart T k (k - 1) + partitionSize T k (k - 1) = T)
    ∧ (∀ i j, i < j → j < k →
        partitionStart T k i + partitionSize T k i ≤ partitionStart T k j)
    ∧ (∀ i, i + 1 < k → partitionSize T k i = T / k)
    ∧ (partitionSize T k (k - 1) = T / k + T % k) :=
  ⟨partition_sum T k hk,
   fun i h => partition_contiguous T k i h,
   partition_last_end T k hk,
   fun i j hij hjk => partition_disjoint T k i j hij hjk,
   fun i h => by rw [partitionSize, if_neg (by omega)],
   by rw [partitionSize, if_pos (by omega)]⟩

theorem C5_split_partitions_witness :
    1 ≤ 4 ∧ (∑ i in Finset.range 4, partitionSize (2 ^ 30) 4 i = 2 ^ 30)
    ∧ partitionSize (2 ^ 30) 4 0 = 268435456 :=
  ⟨by decide, (C5_split_partitions (2 ^ 30) 4 (by decide)).1, by decide⟩

/-- Behaviour of one ndt7 download session over an arbitrary window. -/
theorem ndt7_session_behavior (initial cadence window : Nat) (stopRequested : Bool) :
    ((ndt7Download initial ndt7Cap cadence window stopRequested).1
        = (List.range window).map (fun t => ndt7MsgSize initial ndt7Cap cadence t))
    ∧ ((ndt7Download initial ndt7Cap cadence window stopRequested).2 = true)
    ∧ (∀ stop2, ndt7Download initial ndt7Cap cadence window stopRequested
        = ndt7Download initial ndt7Cap cadence window stop2)
    ∧ (∀ sz ∈ (ndt7Download initial ndt7Cap cadence window stopRequested).1,
        sz ≤ ndt7Cap)
    ∧ ((ndt7Download initial ndt7Cap cadence window stopRequested).1.length = window)
    ∧ (∀ t, 0 < cadence →
        ndt7MsgSize initial ndt7Cap cadence (t + cadence)
          = min (2 * (initial * 2 ^ (t / cadence))) ndt7Cap) := by
  refine ⟨?_, ?_, ?_, ?_, ?_, ?_⟩
  · rw [ndt7Download, ndt7Loop_eq]
    simp
  · rw [ndt7Download, ndt7Loop_eq]
  · intro stop2
    rfl
  · intro sz hsz
    rw [ndt7Download, ndt7Loop_eq] at hsz
    simp only [List.mem_map] at hsz
    obtain ⟨u, _, rfl⟩ := hsz
    exact min_le_right _ _
  · rw [ndt7Download, ndt7Loop_eq]
    simp
  · intro t hcad
    rw [ndt7MsgSize, Nat.add_div_right t hcad, pow_succ]
    congr 1
    ring

/-- C6: an ndt7 download session sends one sized binary message per tick
of the fixed 10-tick measurement window, with sizes following the
start-small-double-on-cadence schedule capped at ~8 MiB; the session
runs for exactly the window and closes the connection cleanly at window
expiry whether or not the client requested a stop. -/
theorem C6_ndt7_window (initial cadence : Nat) (stopRequested : Bool) :
    ((ndt7Download initial ndt7Cap cadence ndt7WindowTicks stopRequested).1
        = (List.range ndt7WindowTicks).map (fun t => ndt7MsgSize initial ndt7Cap cadence t))
    ∧ ((ndt7Download initial ndt7Cap cadence ndt7WindowTicks stopRequested).2 = true)
    ∧ (∀ stop2, ndt7Download initial ndt7Cap cadence ndt7WindowTicks stopRequested
        = ndt7Download initial ndt7Cap cadence ndt7WindowTicks stop2)
    ∧ (∀ sz ∈ (ndt7Download initial ndt7Cap cadence ndt7WindowTicks stopRequested).1,
        sz ≤ ndt7Cap)
    ∧ ((ndt7Download initial ndt7Cap cadence ndt7WindowTicks stopRequested).1.length
        = ndt7WindowTicks)
    ∧ (∀ t, 0 < cadence →
        ndt7MsgSize initial ndt7Cap cadence (t + cadence)
          = min (2 * (initial * 2 ^ (t / cadence))) ndt7Cap) :=
  ndt7_session_behavior initial cadence ndt7WindowTicks stopRequested

theorem C6_ndt7_window_witness :
    (ndt7Download 1 ndt7Cap 1 ndt7WindowTicks false).2 = true
    ∧ (1 ∈ (ndt7Download 1 ndt7Cap 1 ndt7WindowTicks false).1 ∧ 1 ≤ ndt7Cap)
    ∧ (0 < 1 ∧ ndt7MsgSize 1 ndt7Cap 1 (0 + 1) = min (2 * (1 * 2 ^ (0 / 1))) ndt7Cap)
    ∧ ndt7Download 1 ndt7Cap 1 ndt7WindowTicks false
        = ndt7Download 1 ndt7Cap 1 ndt7WindowTicks true :=
  ⟨(C6_ndt7_window 1 1 false).2.1,
   ⟨by decide, (C6_ndt7_window 1 1 false).2.2.2.1 1 (by decide)⟩,
   ⟨by decide, (C6_ndt7_window 1 1 false).2.2.2.2.2 0 (by decide)⟩,
   (C6_ndt7_window 1 1 false).2.2.1 true⟩

/-- C7 counterexample: when any time elapses between the `t0` sample and
the first payload byte (the response header write and the 1 MiB buffer
allocation sit between them), the elapsed value the handler logs differs
from closure-minus-first-byte, so the claim as stated fails. -/
theorem C7_elapsed_counterexample :
    elapsedLogged timelineGap ≠ elapsedFirstByte timelineGap := by
  decide

/-- C7 (amended): the logged elapsed is closure time minus the `t0`
sample taken after validation and the request log, immediately before
the transfer begins; it therefore bounds closure-minus-first-byte from
above, is bounded by closure-minus-handler-start, and coincides with the
claimed value exactly when no time passes between the sample and the
first byte. -/
theorem C7_elapsed_amended (tl : TransferTimeline) :
    elapsedFirstByte tl ≤ elapsedLogged tl
    ∧ elapsedLogged tl ≤ tl.tClose - tl.tHandlerStart
    ∧ (tl.tFirstByte = tl.tSample → elapsedLogged tl = elapsedFirstByte tl) := by
  have h1 := tl.handlerStart_le_sample
  have h2 := tl.sample_le_firstByte
  have h3 := tl.firstByte_le_close
  unfold elapsedLogged elapsedFirstByte
  omega

theorem C7_elapsed_amended_witness :
    elapsedFirstByte timelineTight ≤ elapsedLogged timelineTight
    ∧ elapsedLogged timelineTight = elapsedFirstByte timelineTight :=
  ⟨(C7_elapsed_amended timelineTight).1,
   (C7_elapsed_amended timelineTight).2.2 (by decide)⟩

/-- C8: the synthetic payload source is deterministic (same-length reads
yield identical content from any state, and reading does not change the
state) and never signals end-of-stream on its own; truncation to the
requested size is performed entirely by the caller's `io.LimitReader`
wrapper, under which the copy delivers exactly `N` bytes and stops. -/
theorem C8_infinite_source (s1 s2 : Unit) (n N : Nat) :
    ((infiniteRead s1 n).data = (infiniteRead s2 n).data)
    ∧ ((infiniteRead s1 n).errv ≠ Errv.eof)
    ∧ ((infiniteRead s1 n).next = s1)
    ∧ (copyBuffer (limitedRead infiniteRead) rwWrite chunkSize (N + 1)
        { budget := (N : Int), inner := () } { sent := [], accept := none } 0
      = some (N, { budget := 0, inner := () },
          { sent := List.replicate N 0, accept := none }, false)) := by
  refine ⟨rfl, by simp [infiniteRead], rfl, ?_⟩
  have h := copy_inf_unbounded (N + 1) N 0 [] (Nat.le_refl _)
  simpa using h

theorem C8_infinite_source_witness :
    ((infiniteRead () 3).data = (infiniteRead () 3).data)
    ∧ ((infiniteRead () 3).errv ≠ Errv.eof)
    ∧ (copyBuffer (limitedRead infiniteRead) rwWrite chunkSize (2 + 1)
        { budget := (2 : Int), inner := () } { sent := [], accept := none } 0
      = some (2, { budget := 0, inner := () },
          { sent := List.replicate 2 0, accept := none }, false)) :=
  ⟨(C8_infinite_source () () 3 2).1, (C8_infinite_source () () 3 2).2.1,
   (C8_infinite_source () () 3 2).2.2.2⟩

/-- C9: for every syntactically valid non-negative declared size, the
upload handler answers 204 No Content unconditionally after draining the
body: the completion log carries the bytes actually drained, and the 204
is returned even when the body delivers fewer than `N` bytes or ends in
a transport error, because the copy error is discarded. -/
theorem C9_upload_always_204 (s : String) (N : Int) (pend : List Nat) (hard : Bool)
    (hp : parseInt64 s.data = some N) (hN : 0 ≤ N) :
    handlePut s { pending := pend, hardError := hard }
      = some { status := 204, doneBytes := some (min N.toNat pend.length),
               finalBody := { pending := pend.drop (min N.toNat pend.length),
                              hardError := hard } } :=
  handlePut_valid s N pend hard hp hN

theorem C9_upload_always_204_witness :
    parseInt64 "5".data = some 5 ∧
    handlePut "5" { pending := [1, 2], hardError := true }
      = some { status := 204, doneBytes := some (min (5 : Int).toNat 2),
               finalBody := { pending := List.drop (min (5 : Int).toNat 2) [1, 2],
                              hardError := true } } :=
  ⟨by decide, C9_upload_always_204 "5" 5 [1, 2] true (by decide) (by decide)⟩

/-- C10: sizes above `2^63 - 1` overflow the 64-bit signed parse and are
rejected with 400 Bad Request on both endpoints, exactly like a
non-numeric size, although they are non-negative decimal integers. -/
theorem C10_oversize_rejected (s : String) (N : Nat) (accept : Option Nat) (body : BodyState)
    (hd : decimalValue? s.data = some N) (hover : 2 ^ 63 - 1 < N) :
    parseInt64 s.data = none
    ∧ handleGet s accept
      = some { status := 400, contentLength := none, body := [], doneBytes := none }
    ∧ handlePut s body
      = some { status := 400, doneBytes := none, finalBody := body } := by
  have hnone := parseInt64_pos_overflow s.data N hd hover
  exact ⟨hnone, handleGet_invalid s accept (Or.inl hnone),
    handlePut_invalid s body (Or.inl hnone)⟩

theorem C10_oversize_rejected_witness :
    decimalValue? "9223372036854775808".data = some 9223372036854775808
    ∧ 2 ^ 63 - 1 < 9223372036854775808
    ∧ parseInt64 "9223372036854775808".data = none
    ∧ handleGet "9223372036854775808" none
      = some { status := 400, contentLength := none, body := [], doneBytes := none } :=
  ⟨by decide, by decide,
   (C10_oversize_rejected "9223372036854775808" 9223372036854775808 none
      { pending := [], hardError := false } (by decide) (by decide)).1,
   (C10_oversize_rejected "9223372036854775808" 9223372036854775808 none
      { pending := [], hardError := false } (by decide) (by decide)).2.1⟩

end JsPerf
